import Mathlib

/-
  Verification development for the replicated-ledger core of the
  blockchain news platform (backend/p2p.js together with the embedded
  blockchain implementation, and the vote endpoint of backend/server.js).

  The SHA-256 hex digest is abstracted as a function `H : String → String`
  passed to every hashing operation; all statements are parametric in `H`,
  matching the fact that the code only ever compares digests for equality.
  `Date.now()` is modelled as an explicit `now : Nat` argument, and the
  unbounded mining loop receives an explicit fuel argument.
-/

namespace NewsChain

/-- Payload stored in a block (`this.data`).  The repository stores either a
plain string (the genesis marker `'Genesis Block'`) or an article record; of
the article we keep the fields the synchronisation and voting code read
(`id`, `votes`, `downvotes`) and collapse the remaining fields into an
opaque `rest` string. -/
inductive BData where
  | str (s : String)
  | article (id : String) (votes : Nat) (downvotes : Nat) (rest : String)
deriving DecidableEq, Repr

/-- `JSON.stringify(this.data)` as it occurs inside `calculateHash`.
Strings are assumed to contain no characters that need JSON escaping. -/
def BData.stringify : BData → String
  | .str s => "\"" ++ s ++ "\""
  | .article id votes downvotes rest =>
      "\x7b\"id\":\"" ++ id ++ "\",\"votes\":" ++ toString votes ++
      ",\"downvotes\":" ++ toString downvotes ++ ",\"rest\":\"" ++ rest ++ "\"\x7d"

/-- A block of the chain (`class Block`), field for field in declaration
order: `index`, `timestamp`, `data`, `previousHash`, `nonce`, `hash`. -/
structure Block where
  index : Nat
  timestamp : Nat
  data : BData
  previousHash : String
  nonce : Nat
  hash : String
deriving DecidableEq, Repr

/-- The string hashed by `calculateHash`: the JS expression
`this.index + this.previousHash + this.timestamp + JSON.stringify(this.data) + this.nonce`
coerces the numbers to decimal strings and concatenates. -/
def hashInput (index : Nat) (previousHash : String) (timestamp : Nat)
    (data : BData) (nonce : Nat) : String :=
  toString index ++ previousHash ++ toString timestamp ++
    BData.stringify data ++ toString nonce

/-- `Block.calculateHash`, with the SHA-256 hex digest abstracted as `H`. -/
def Block.calculateHash (H : String → String) (b : Block) : String :=
  H (hashInput b.index b.previousHash b.timestamp b.data b.nonce)

/-- The `Block` constructor: stores the four fields, sets `nonce = 0` and
then `this.hash = this.calculateHash()`. -/
def Block.create (H : String → String) (index timestamp : Nat)
    (data : BData) (previousHash : String) : Block :=
  let b : Block :=
    { index := index, timestamp := timestamp, data := data,
      previousHash := previousHash, nonce := 0, hash := "" }
  { b with hash := b.calculateHash H }

/-- `Array(difficulty + 1).join('0')`: the string of `difficulty` zeros. -/
def zeros (difficulty : Nat) : String :=
  String.mk (List.replicate difficulty '0')

/-- One iteration of the mining loop body:
`this.nonce++; this.hash = this.calculateHash();`. -/
def Block.step (H : String → String) (b : Block) : Block :=
  let b' : Block := { b with nonce := b.nonce + 1 }
  { b' with hash := b'.calculateHash H }

/-- `Block.mineBlock(difficulty)`: loop while
`this.hash.substring(0, difficulty) !== Array(difficulty + 1).join('0')`.
The loop has no bound in the source, so the model carries a fuel argument;
`none` means the loop was still running when the fuel ran out. -/
def Block.mineBlock (H : String → String) (difficulty : Nat)
    (fuel : Nat) (b : Block) : Option Block :=
  if b.hash.take difficulty = zeros difficulty then some b
  else
    match fuel with
    | 0 => none
    | fuel' + 1 => Block.mineBlock H difficulty fuel' (b.step H)

/-- `JSON.stringify` of a whole block, keys in insertion order
(`index`, `timestamp`, `data`, `previousHash`, `nonce`, `hash`), as used by
the genesis comparison in `isValidChain`. -/
def Block.stringify (b : Block) : String :=
  "\x7b\"index\":" ++ toString b.index ++
  ",\"timestamp\":" ++ toString b.timestamp ++
  ",\"data\":" ++ BData.stringify b.data ++
  ",\"previousHash\":\"" ++ b.previousHash ++
  "\",\"nonce\":" ++ toString b.nonce ++
  ",\"hash\":\"" ++ b.hash ++ "\"\x7d"

/-- `Blockchain.createGenesisBlock()`: `new Block(0, Date.now(), 'Genesis Block', '0')`.
`Date.now()` is the explicit argument `now`. -/
def createGenesisBlock (H : String → String) (now : Nat) : Block :=
  Block.create H 0 now (BData.str "Genesis Block") "0"

/-- The mutable state of one `Blockchain` instance: the in-memory `chain`,
the fixed `difficulty` (2 in the constructor), and `disk`, the contents of
`blockchain_data/blockchain.json` (`pendingTransactions` is never used by
the code and is omitted). -/
structure Node where
  chain : List Block
  difficulty : Nat
  disk : List Block
deriving DecidableEq, Repr

/-- One entry of `loadBlockchain`: rebuilds `new Block(index, timestamp,
data, previousHash)` and then restores the saved `nonce` and `hash`. -/
def reconstructBlock (H : String → String) (b : Block) : Block :=
  let blk := Block.create H b.index b.timestamp b.data b.previousHash
  { blk with nonce := b.nonce, hash := b.hash }

/-- `Blockchain.loadBlockchain()`: read `blockchain.json` and reconstruct
every block. -/
def loadBlockchain (H : String → String) (st : Node) : List Block :=
  st.disk.map (reconstructBlock H)

/-- Result of `Blockchain.addBlock`: normal return of the new block,
propagation of a `saveBlockchain` exception (with the in-memory state the
exception leaves behind), or a run-time failure of the model
(`getLatestBlock()` on an empty chain, or mining fuel exhausted). -/
inductive AddResult where
  | ok (st : Node) (b : Block)
  | saveFailed (st : Node)
  | error
deriving DecidableEq, Repr

/-- `Blockchain.addBlock(data)`: build
`new Block(this.chain.length, Date.now(), data, this.getLatestBlock().hash)`,
mine it at `this.difficulty`, push it, then `saveBlockchain()`.  `saveOk`
says whether the `fs.writeFileSync` inside `saveBlockchain` succeeds; when
it throws, the exception propagates after the push has already happened. -/
def addBlock (H : String → String) (fuel now : Nat) (saveOk : Bool)
    (st : Node) (data : BData) : AddResult :=
  match st.chain.getLast? with
  | none => .error
  | some tip =>
    match Block.mineBlock H st.difficulty fuel
        (Block.create H st.chain.length now data tip.hash) with
    | none => .error
    | some nb =>
      let chain' := st.chain ++ [nb]
      if saveOk then .ok { st with chain := chain', disk := chain' } nb
      else .saveFailed { st with chain := chain' }

/-- `Blockchain.isChainValid()`: for every `i ≥ 1`, recompute the block's
hash and check the link to its predecessor.  Element 0 is never itself
checked. -/
def isChainValid (H : String → String) : List Block → Bool
  | [] => true
  | [_] => true
  | prev :: b :: rest =>
    if b.hash ≠ b.calculateHash H then false
    else if b.previousHash ≠ prev.hash then false
    else isChainValid H (b :: rest)

/-- The hash of the `testBlock` rebuilt inside `isValidChain`:
`new Block(index, timestamp, data, previousHash)` with `nonce` restored,
then `calculateHash()`. -/
def testBlockHash (H : String → String) (b : Block) : String :=
  let t := Block.create H b.index b.timestamp b.data b.previousHash
  Block.calculateHash H { t with nonce := b.nonce }

/-- The `for (let i = 1; ...)` loop of `Blockchain.isValidChain`: link to
the predecessor first, then recompute the hash through `testBlock`. -/
def chainTailValid (H : String → String) : List Block → Bool
  | [] => true
  | [_] => true
  | prev :: b :: rest =>
    if b.previousHash ≠ prev.hash then false
    else if b.hash ≠ testBlockHash H b then false
    else chainTailValid H (b :: rest)

/-- `Blockchain.isValidChain(chain)`: compare
`JSON.stringify(chain[0])` with `JSON.stringify(this.createGenesisBlock())`
(the genesis is rebuilt with the *current* `Date.now()`, here `now`), then
run the link/hash loop.  On an empty chain `JSON.stringify(chain[0])` is
`undefined` and the comparison with a string fails, so the result is
`false`. -/
def isValidChain (H : String → String) (now : Nat) (chain : List Block) : Bool :=
  match chain with
  | [] => false
  | g :: _ =>
    if Block.stringify g ≠ Block.stringify (createGenesisBlock H now) then false
    else chainTailValid H chain

/-- Result of `Blockchain.replaceChain`: the returned boolean, or a
propagated `saveBlockchain` exception together with the in-memory state it
leaves behind. -/
inductive RepResult where
  | ret (st : Node) (value : Bool)
  | saveFailed (st : Node)
deriving DecidableEq, Repr

/-- `Blockchain.replaceChain(newChain)`: reject when not strictly longer,
reject when `isValidChain` fails, otherwise assign `this.chain = newChain`,
persist, and return `true`. -/
def replaceChain (H : String → String) (now : Nat) (saveOk : Bool)
    (st : Node) (newChain : List Block) : RepResult :=
  if newChain.length ≤ st.chain.length then .ret st false
  else if !(isValidChain H now newChain) then .ret st false
  else
    let st' := { st with chain := newChain }
    if saveOk then .ret { st' with disk := newChain } true
    else .saveFailed st'

/-- The per-position choice of `P2PNetwork.mergeChains`: when the hashes
differ and the peer's block has the strictly earlier timestamp, take the
peer's block, otherwise keep the local one. -/
def chooseBlock (my their : Block) : Block :=
  if my.hash ≠ their.hash then
    if their.timestamp < my.timestamp then their else my
  else my

/-- `P2PNetwork.mergeChains(incomingChain)`: iterate the positions of the
incoming chain, reading `this.blockchain.chain[i]` at each; `none` models
the runtime error the source would hit when the local chain is shorter than
the incoming one. -/
def mergeChains : List Block → List Block → Option (List Block)
  | myC, [] => some myC
  | [], _ :: _ => none
  | my :: ms, their :: ts =>
    (mergeChains ms ts).map fun rest => chooseBlock my their :: rest

/-- The guard of `handleVoteUpdate` and of the vote endpoint:
`block.data && block.data.id === message.articleId`.  A plain-string
payload has no `id` field, so it never matches. -/
def dataMatches (articleId : String) : BData → Bool
  | .str _ => false
  | .article id _ _ _ => id == articleId

/-- The in-place update of `handleVoteUpdate`: `'up'` overwrites
`data.votes` with `message.votes`, `'down'` overwrites `data.downvotes`
with `message.downvotes`, anything else leaves the payload as it is. -/
def applyVote (voteType : String) (votes downvotes : Nat) : BData → BData
  | .article id v d rest =>
    if voteType = "up" then .article id votes d rest
    else if voteType = "down" then .article id v downvotes rest
    else .article id v d rest
  | d => d

/-- `P2PNetwork.handleVoteUpdate(message)` restricted to its effect on the
chain: find the first block whose payload matches `articleId`, overwrite
its vote field in place, and stop. -/
def handleVoteUpdate (articleId voteType : String) (votes downvotes : Nat) :
    List Block → List Block
  | [] => []
  | b :: rest =>
    if dataMatches articleId b.data then
      { b with data := applyVote voteType votes downvotes b.data } :: rest
    else b :: handleVoteUpdate articleId voteType votes downvotes rest

/-- `P2PNetwork.isValidNewBlock(block)`: contiguity against the current
tip. -/
def isValidNewBlock (tip b : Block) : Bool :=
  if b.index ≠ tip.index + 1 then false
  else if b.previousHash ≠ tip.hash then false
  else true

/-- The `NEW_BLOCK` branch of `P2PNetwork.handleMessage`: when
`isValidNewBlock` accepts, push the block and persist (the `true` flag
stands for the `emit`/re-flood that only happens then); otherwise the
message is dropped and the state is untouched.  `none` models the runtime
error of `getLatestBlock()` on an empty chain. -/
def handleNewBlockMsg (st : Node) (b : Block) : Option (Node × Bool) :=
  match st.chain.getLast? with
  | none => none
  | some tip =>
    if isValidNewBlock tip b then
      some ({ st with chain := st.chain ++ [b], disk := st.chain ++ [b] }, true)
    else some (st, false)

/-! ### Concrete instances used by witnesses and counterexamples -/

/-- The identity function standing in for the abstract digest `H` in
concrete evaluations. -/
def hId : String → String := fun s => s

/-- A constant digest that makes difficulty-2 mining succeed at once. -/
def h00 : String → String := fun _ => "00"

/-- Genesis block created at time 0 under the identity digest. -/
def gId : Block := createGenesisBlock hId 0

/-- Genesis block created at time 0 under the constant digest. -/
def g00 : Block := createGenesisBlock h00 0

/-- A single-block node state under the constant digest. -/
def st00 : Node := { chain := [g00], difficulty := 2, disk := [g00] }

/-- The block `addBlock` mines on top of `st00` at time 7 under `h00`. -/
def nb1 : Block :=
  { index := 1, timestamp := 7, data := .str "x", previousHash := "00",
    nonce := 0, hash := "00" }

/-- The node state after a successful `addBlock` on `st00`. -/
def st1 : Node := { chain := [g00, nb1], difficulty := 2, disk := [g00, nb1] }

/-- The in-memory state `addBlock` leaves behind on `st00` when
`saveBlockchain` throws: the block is pushed but never persisted. -/
def stBad : Node := { chain := [g00, nb1], difficulty := 2, disk := [g00] }

/-- An empty-chain node state under the identity digest. -/
def stEmpty : Node := { chain := [], difficulty := 2, disk := [] }

/-- Genesis block created at time 5 under the identity digest. -/
def g5 : Block := createGenesisBlock hId 5

/-- The node state holding exactly `[g5]`. -/
def stG5 : Node := { chain := [g5], difficulty := 2, disk := [g5] }

/-- A block that is not the genesis block (wrong payload and hash). -/
def badBlock : Block :=
  { index := 0, timestamp := 5, data := .str "bad", previousHash := "0",
    nonce := 0, hash := "zz" }

/-- A sealed article block sitting on top of `gId`, hash-consistent under
the identity digest. -/
def artBlock : Block := Block.create hId 1 2 (.article "a1" 0 0 "r") gId.hash

/-- `artBlock` after the in-place vote mutation (votes overwritten to 7,
stored hash untouched). -/
def artBlockVoted : Block := { artBlock with data := .article "a1" 7 0 "r" }

/-- A lone block with a corrupted hash. -/
def corruptB : Block := { gId with hash := "garbage" }

/-- Divergent block with timestamp 5 and hash "ha". -/
def aT : Block :=
  { index := 0, timestamp := 5, data := .str "a", previousHash := "0",
    nonce := 0, hash := "ha" }

/-- Divergent block with the same timestamp 5 but hash "hb". -/
def bT : Block :=
  { index := 0, timestamp := 5, data := .str "b", previousHash := "0",
    nonce := 0, hash := "hb" }

/-- Divergent block with the strictly earlier timestamp 3 and hash "hb". -/
def bW : Block :=
  { index := 0, timestamp := 3, data := .str "b", previousHash := "0",
    nonce := 0, hash := "hb" }

/-- A freshly mined block awaiting `mineBlock` under `h00`. -/
def mb0 : Block := Block.create h00 0 0 (.str "x") "0"

/-! ### Helper lemmas -/

/-- `calculateHash` never reads the stored `hash` field. -/
lemma calculateHash_set_hash (H : String → String) (b : Block) (s : String) :
    Block.calculateHash H { b with hash := s } = Block.calculateHash H b := rfl

/-- After one loop iteration the stored hash again recomputes from the
fields, and no field other than `nonce`/`hash` changes. -/
lemma step_hash_inv (H : String → String) (b : Block) :
    (b.step H).hash = Block.calculateHash H (b.step H) := rfl

/-- Everything `mineBlock` guarantees when it finishes: the difficulty
prefix, hash consistency (given it held initially), and that only
`nonce`/`hash` were touched. -/
lemma mineBlock_spec (H : String → String) (d : Nat) (fuel : Nat) :
    ∀ b b' : Block, b.hash = Block.calculateHash H b →
      Block.mineBlock H d fuel b = some b' →
      b'.hash.take d = zeros d ∧ b'.hash = Block.calculateHash H b' ∧
      b'.index = b.index ∧ b'.previousHash = b.previousHash ∧
      b'.timestamp = b.timestamp ∧ b'.data = b.data := by
  induction fuel with
  | zero =>
    intro b b' hinv hrun
    unfold Block.mineBlock at hrun
    split at hrun
    · injection hrun with h
      subst h
      exact ⟨by assumption, hinv, rfl, rfl, rfl, rfl⟩
    · simp at hrun
  | succ n ih =>
    intro b b' hinv hrun
    unfold Block.mineBlock at hrun
    split at hrun
    · injection hrun with h
      subst h
      exact ⟨by assumption, hinv, rfl, rfl, rfl, rfl⟩
    · obtain ⟨h1, h2, h3, h4, h5, h6⟩ :=
        ih (b.step H) b' (step_hash_inv H b) hrun
      exact ⟨h1, h2, h3, h4, h5, h6⟩

/-- `loadBlockchain` reconstructs every block identically. -/
lemma reconstructBlock_eq (H : String → String) (b : Block) :
    reconstructBlock H b = b := rfl

/-- Loading gives back exactly what was saved. -/
lemma loadBlockchain_eq (H : String → String) (st : Node) :
    loadBlockchain H st = st.disk := by
  unfold loadBlockchain
  have h : ∀ l : List Block, l.map (reconstructBlock H) = l := by
    intro l
    induction l with
    | nil => rfl
    | cons a t iht => simp [reconstructBlock_eq, iht]
  exact h st.disk

/-- A successful merge keeps the local chain's length. -/
lemma mergeChains_length :
    ∀ (l inc out : List Block), mergeChains l inc = some out →
      out.length = l.length := by
  intro l
  induction l with
  | nil =>
    intro inc out h
    cases inc with
    | nil =>
      simp [mergeChains] at h
      simp [← h]
    | cons b bs => simp [mergeChains] at h
  | cons a as ih =>
    intro inc out h
    cases inc with
    | nil =>
      simp [mergeChains] at h
      simp [← h]
    | cons b bs =>
      unfold mergeChains at h
      cases hm : mergeChains as bs with
      | none => rw [hm] at h; simp at h
      | some rest =>
        rw [hm] at h
        simp at h
        simp [← h, ih bs rest hm]

/-- Position-wise description of a successful merge: each kept position is
`chooseBlock` of the two candidates, positions past the incoming chain stay
local. -/
lemma mergeChains_getElem? :
    ∀ (l inc out : List Block), mergeChains l inc = some out →
      ∀ i : Nat, out[i]? = (l[i]?).map
        (fun a => match inc[i]? with | some b => chooseBlock a b | none => a) := by
  intro l
  induction l with
  | nil =>
    intro inc out h i
    cases inc with
    | nil =>
      simp [mergeChains] at h
      subst h
      simp
    | cons b bs => simp [mergeChains] at h
  | cons a as ih =>
    intro inc out h i
    cases inc with
    | nil =>
      simp [mergeChains] at h
      cases i with
      | zero => simp [← h]
      | succ j => simp [← h]
    | cons b bs =>
      unfold mergeChains at h
      cases hm : mergeChains as bs with
      | none => rw [hm] at h; simp at h
      | some rest =>
        rw [hm] at h
        simp at h
        cases i with
        | zero => simp [← h]
        | succ j =>
          have := ih bs rest hm j
          simp [← h, this]

/-! ### Claim theorems -/

/-- C1: `isValidChain` compares element 0 against a genesis block rebuilt
with the *current* clock value, so the very same length-1 genesis chain is
accepted at the millisecond of its creation and rejected at any other
validation time — the claimed "chain of length 1 containing only the
genesis block is valid" fails as soon as the clock has moved. -/
theorem isValidChain_genesis_uses_current_time :
    isValidChain hId 0 [createGenesisBlock hId 0] = true ∧
    isValidChain hId 1 [createGenesisBlock hId 0] = false := by decide

/-- C2: `replaceChain` rejects (returns `false`, state untouched) any
candidate that is not strictly longer, rejects a strictly longer candidate
that fails `isValidChain`, and only for a strictly longer valid candidate
swaps the chain, persists it and returns `true`. -/
theorem replaceChain_spec (H : String → String) (now : Nat) (st : Node)
    (nc : List Block) :
    (nc.length ≤ st.chain.length →
      replaceChain H now true st nc = .ret st false) ∧
    (st.chain.length < nc.length → isValidChain H now nc = false →
      replaceChain H now true st nc = .ret st false) ∧
    (st.chain.length < nc.length → isValidChain H now nc = true →
      replaceChain H now true st nc =
        .ret { st with chain := nc, disk := nc } true) := by
  unfold replaceChain
  refine ⟨fun hle => ?_, fun hlt hval => ?_, fun hlt hval => ?_⟩
  · rw [if_pos hle]
  · rw [if_neg (by omega), hval]
    rfl
  · rw [if_neg (by omega), hval]
    rfl

/-- C2 witness: accepted longer valid candidate, rejected equal-length
candidate, rejected longer invalid candidate. -/
theorem replaceChain_spec_witness :
    replaceChain hId 5 true stEmpty [g5] =
      .ret { stEmpty with chain := [g5], disk := [g5] } true ∧
    replaceChain hId 5 true stG5 [g5] = .ret stG5 false ∧
    replaceChain hId 5 true stEmpty [badBlock] = .ret stEmpty false :=
  ⟨(replaceChain_spec hId 5 stEmpty [g5]).2.2 (by decide) (by decide),
   (replaceChain_spec hId 5 stG5 [g5]).1 (by decide),
   (replaceChain_spec hId 5 stEmpty [badBlock]).2.1 (by decide) (by decide)⟩

/-- C3: when `saveBlockchain` throws inside `addBlock`, the already-pushed
block is *not* rolled back: the in-memory chain has grown while the disk
still holds the old chain, so memory and persisted state diverge. -/
theorem addBlock_save_failure_no_rollback :
    addBlock h00 0 7 false st00 (.str "x") = .saveFailed stBad ∧
    stBad.chain ≠ st00.chain ∧ stBad.disk = st00.disk := by decide

/-- C4 counterexample: two equal-length chains diverging at position 0 with
*equal* timestamps; each node keeps its own (distinct) block, so the two
sides do not converge to an identical block. -/
theorem mergeChains_tie_counterexample :
    aT.hash ≠ bT.hash ∧ aT.timestamp = bT.timestamp ∧
    mergeChains [aT] [bT] = some [aT] ∧
    mergeChains [bT] [aT] = some [bT] ∧ aT ≠ bT := by decide

/-- C4 (amended): when the two blocks at a divergent position have
*different* timestamps, `mergeChains` run on either side leaves that
position holding the identical block — the one with the earlier
timestamp. -/
theorem mergeChains_tiebreak (A B outAB outBA : List Block) (i : Nat)
    (a b : Block)
    (hlen : A.length = B.length)
    (ha : A[i]? = some a) (hb : B[i]? = some b)
    (hhash : a.hash ≠ b.hash) (hts : a.timestamp ≠ b.timestamp)
    (hAB : mergeChains A B = some outAB)
    (hBA : mergeChains B A = some outBA) :
    outAB[i]? = outBA[i]? ∧
    outAB[i]? = some (if b.timestamp < a.timestamp then b else a) := by
  have h1 := mergeChains_getElem? A B outAB hAB i
  have h2 := mergeChains_getElem? B A outBA hBA i
  rw [ha, hb] at h1
  rw [ha, hb] at h2
  simp only [Option.map_some'] at h1 h2
  rw [h1, h2]
  unfold chooseBlock
  rw [if_pos hhash, if_pos (Ne.symm hhash)]
  rcases Nat.lt_trichotomy a.timestamp b.timestamp with hlt | heq | hgt
  · have e1 : (if b.timestamp < a.timestamp then b else a) = a := if_neg (by omega)
    have e2 : (if a.timestamp < b.timestamp then a else b) = a := if_pos hlt
    rw [e1, e2]
    exact ⟨rfl, rfl⟩
  · exact absurd heq hts
  · have e1 : (if b.timestamp < a.timestamp then b else a) = b := if_pos hgt
    have e2 : (if a.timestamp < b.timestamp then a else b) = b := if_neg (by omega)
    rw [e1, e2]
    exact ⟨rfl, rfl⟩

/-- C4 witness: timestamps 5 and 3, both directions converge to the
timestamp-3 block. -/
theorem mergeChains_tiebreak_witness :
    (([bW] : List Block))[0]? = (([bW] : List Block))[0]? ∧
    (([bW] : List Block))[0]? =
      some (if bW.timestamp < aT.timestamp then bW else aT) :=
  mergeChains_tiebreak [aT] [bW] [bW] [bW] 0 aT bW (by decide) (by decide)
    (by decide) (by decide) (by decide) (by decide) (by decide)

/-- C5: the vote-update path mutates a sealed block's payload in place —
starting from a chain that passes `isChainValid`, one `handleVoteUpdate`
leaves the block's stored hash stale (it no longer recomputes from the
fields) and the chain now fails `isChainValid`, contradicting the claimed
immutability of sealed blocks. -/
theorem voteUpdate_mutates_sealed_block :
    isChainValid hId [gId, artBlock] = true ∧
    handleVoteUpdate "a1" "up" 7 0 [gId, artBlock] = [gId, artBlockVoted] ∧
    artBlockVoted.hash ≠ Block.calculateHash hId artBlockVoted ∧
    isChainValid hId [gId, artBlockVoted] = false := by decide

/-- C6: a successful `addBlock` grows the chain by exactly one block whose
`previousHash` is the old tip's hash and whose `index` is the old length,
and reading the durable store straight afterwards returns the in-memory
chain. -/
theorem addBlock_monotonic (H : String → String) (fuel now : Nat)
    (st : Node) (data : BData) (tip nb : Block) (st' : Node)
    (htip : st.chain.getLast? = some tip)
    (hrun : addBlock H fuel now true st data = .ok st' nb) :
    st'.chain.length = st.chain.length + 1 ∧
    nb.previousHash = tip.hash ∧
    nb.index = st.chain.length ∧
    st'.chain = st.chain ++ [nb] ∧
    loadBlockchain H st' = st'.chain := by
  unfold addBlock at hrun
  split at hrun
  · exact AddResult.noConfusion hrun
  · rename_i tip0 heq
    rw [htip] at heq
    injection heq with heq'
    subst heq'
    split at hrun
    · exact AddResult.noConfusion hrun
    · rename_i nb0 hmine
      simp at hrun
      obtain ⟨hst, hnb⟩ := hrun
      obtain ⟨_, _, hidx, hprev, _, _⟩ :=
        mineBlock_spec H st.difficulty fuel _ nb0 rfl hmine
      subst hnb
      subst hst
      refine ⟨by simp, ?_, ?_, rfl, ?_⟩
      · rw [hprev]
        rfl
      · rw [hidx]
        rfl
      · rw [loadBlockchain_eq]

/-- C6 witness: concrete successful append on a one-block chain. -/
theorem addBlock_monotonic_witness :
    st1.chain.length = st00.chain.length + 1 ∧
    nb1.previousHash = g00.hash ∧
    nb1.index = st00.chain.length ∧
    st1.chain = st00.chain ++ [nb1] ∧
    loadBlockchain h00 st1 = st1.chain :=
  addBlock_monotonic h00 0 7 st00 (.str "x") g00 nb1 st1 (by decide) (by decide)

/-- C7: an incoming `NEW_BLOCK` is appended (and flagged for re-flooding)
exactly when its `index` is the tip's index plus one and its
`previousHash` is the tip's hash; otherwise it is dropped and the state is
unchanged. -/
theorem handleNewBlockMsg_spec (st : Node) (b tip : Block)
    (htip : st.chain.getLast? = some tip) :
    (handleNewBlockMsg st b =
        some ({ st with chain := st.chain ++ [b], disk := st.chain ++ [b] },
          true)
      ↔ (b.index = tip.index + 1 ∧ b.previousHash = tip.hash)) ∧
    (¬ (b.index = tip.index + 1 ∧ b.previousHash = tip.hash) →
      handleNewBlockMsg st b = some (st, false)) := by
  unfold handleNewBlockMsg isValidNewBlock
  rw [htip]
  by_cases h1 : b.index = tip.index + 1
  · by_cases h2 : b.previousHash = tip.hash
    · simp [h1, h2]
    · simp [h1, h2]
  · simp [h1]

/-- C7 witness: a contiguous block is appended and persisted. -/
theorem handleNewBlockMsg_spec_witness :
    handleNewBlockMsg st00 nb1 = some (st1, true) := by
  have h := (handleNewBlockMsg_spec st00 nb1 g00 (by decide)).1.mpr (by decide)
  exact h

/-- C8: whenever the mining loop terminates on a hash-consistent block, the
resulting hash starts with `difficulty` zero characters and equals the
digest recomputed from `index`, `previousHash`, `timestamp`, payload and
the final `nonce`. -/
theorem mineBlock_postcondition (H : String → String) (d fuel : Nat)
    (b b' : Block)
    (hinv : b.hash = Block.calculateHash H b)
    (hrun : Block.mineBlock H d fuel b = some b') :
    b'.hash.take d = zeros d ∧
    b'.hash =
      H (hashInput b'.index b'.previousHash b'.timestamp b'.data b'.nonce) := by
  obtain ⟨h1, h2, _⟩ := mineBlock_spec H d fuel b b' hinv hrun
  exact ⟨h1, h2⟩

/-- C8 witness: under the constant digest, difficulty 2 is met at once. -/
theorem mineBlock_postcondition_witness :
    mb0.hash.take 2 = zeros 2 ∧
    mb0.hash =
      h00 (hashInput mb0.index mb0.previousHash mb0.timestamp mb0.data
        mb0.nonce) :=
  mineBlock_postcondition h00 2 0 mb0 mb0 (by decide) (by decide)

/-- C9: `isChainValid` only ever checks the blocks at positions 1 and
upwards, so every chain of length at most 1 — whatever its sole block
contains — is reported valid. -/
theorem isChainValid_short (H : String → String) (c : List Block)
    (h : c.length ≤ 1) : isChainValid H c = true := by
  match c with
  | [] => rfl
  | [_] => rfl
  | a :: b :: t =>
    exfalso
    simp [List.length_cons] at h

/-- C9 witness: a lone block with a corrupted hash still validates. -/
theorem isChainValid_short_witness :
    ([corruptB] : List Block).length ≤ 1 ∧
    isChainValid hId [corruptB] = true :=
  ⟨by decide, isChainValid_short hId [corruptB] (by decide)⟩

/-- C10: merging an equal-length incoming chain keeps the local chain's
length, and every position ends up holding either the original local block
or the incoming block of that same position. -/
theorem mergeChains_same_length_frame (l inc out : List Block) (i : Nat)
    (hlen : l.length = inc.length) (h : mergeChains l inc = some out) :
    out.length = l.length ∧ (out[i]? = l[i]? ∨ out[i]? = inc[i]?) := by
  refine ⟨mergeChains_length l inc out h, ?_⟩
  have hg := mergeChains_getElem? l inc out h i
  cases hl : l[i]? with
  | none =>
    left
    rw [hg, hl]
    rfl
  | some a =>
    cases hi : inc[i]? with
    | none =>
      left
      rw [hg, hl, hi]
      rfl
    | some b =>
      rw [hg, hl, hi]
      simp only [Option.map_some']
      unfold chooseBlock
      by_cases hh : a.hash ≠ b.hash
      · rw [if_pos hh]
        by_cases ht : b.timestamp < a.timestamp
        · right
          rw [if_pos ht]
        · left
          rw [if_neg ht]
      · left
        rw [if_neg hh]

/-- C10 witness: the incoming block wins at position 0, length is kept. -/
theorem mergeChains_same_length_frame_witness :
    ([bW] : List Block).length = ([aT] : List Block).length ∧
    (([bW] : List Block)[0]? = ([aT] : List Block)[0]? ∨
      ([bW] : List Block)[0]? = ([bW] : List Block)[0]?) :=
  mergeChains_same_length_frame [aT] [bW] [bW] 0 (by decide) (by decide)

end NewsChain
